import Mathlib

/-!
Verification of the Gerrit review crawler (monocle/gerrit/review.py).

The file shallowly embeds the two core responsibilities of the module:
the paginated fetch loop of `ReviewesFetcher.get` and the event-extraction
transform `ReviewesFetcher.extract_objects`, together with the date helpers
`convert_date_for_db` / `convert_date_for_query` and the compiled message
pattern.  Python exceptions are modelled by `Option` (`none` = the call
raised), Python dict keys that may be left unset are modelled by an outer
`Option` layer where a claim depends on the distinction.
-/

namespace Monocle

/-- Calendar timestamp with second precision, the value produced by
`datetime.strptime` for the formats used in the module. -/
structure PyDateTime where
  year : Nat
  month : Nat
  day : Nat
  hour : Nat
  minute : Nat
  second : Nat
deriving DecidableEq

/-- An ASCII decimal digit read as its value, `none` for any other char. -/
def readDigit (c : Char) : Option Nat :=
  if 48 ≤ c.toNat ∧ c.toNat ≤ 57 then some (c.toNat - 48) else none

/-- The decimal digit characters used by zero-padded strftime output. -/
def digitCh : Nat → Char
  | 0 => '0'
  | 1 => '1'
  | 2 => '2'
  | 3 => '3'
  | 4 => '4'
  | 5 => '5'
  | 6 => '6'
  | 7 => '7'
  | 8 => '8'
  | 9 => '9'
  | _ => '*'

/-- Reads one or two decimal digits (two preferred, as the regular
expressions behind strptime directives %m, %d, %H, %M, %S do) and checks
the admissible value range. -/
def parse2 (lo hi : Nat) : List Char → Option (Nat × List Char)
  | [] => none
  | c :: cs =>
    match readDigit c with
    | none => none
    | some a =>
      match cs with
      | d :: cs2 =>
        match readDigit d with
        | some b =>
          if lo ≤ 10 * a + b ∧ 10 * a + b ≤ hi then some (10 * a + b, cs2) else none
        | none => if lo ≤ a ∧ a ≤ hi then some (a, d :: cs2) else none
      | [] => if lo ≤ a ∧ a ≤ hi then some (a, []) else none

/-- Reads exactly four decimal digits, as the strptime directive %Y does. -/
def parse4 : List Char → Option (Nat × List Char)
  | c1 :: c2 :: c3 :: c4 :: cs =>
    match readDigit c1, readDigit c2, readDigit c3, readDigit c4 with
    | some a, some b, some c, some d => some (((a * 10 + b) * 10 + c) * 10 + d, cs)
    | _, _, _, _ => none
  | _ => none

def expectChar (c : Char) : List Char → Option (List Char)
  | x :: cs => if x = c then some cs else none
  | [] => none

def expectEndWith (tail cs : List Char) : Option Unit :=
  if cs = tail then some () else none

def isLeap (y : Nat) : Bool :=
  (y % 4 == 0) && (y % 100 != 0 || y % 400 == 0)

def daysInMonth (y m : Nat) : Nat :=
  if m = 2 then (if isLeap y then 29 else 28)
  else if m = 4 ∨ m = 6 ∨ m = 9 ∨ m = 11 then 30
  else 31

/-- Model of `datetime.strptime` for the fixed formats used by the fetcher:
four-digit year, dash, month, dash, day, a separator character, hour, colon,
minute, colon, second, then a fixed trailing literal and end of input.
Range validation follows the strptime directive patterns plus the checks of
the datetime constructor (day against real month length, year at least 1). -/
def strptimeYmdHms (sep : Char) (tail : List Char) (cs : List Char) : Option PyDateTime := do
  let (y, cs) ← parse4 cs
  let cs ← expectChar '-' cs
  let (mo, cs) ← parse2 1 12 cs
  let cs ← expectChar '-' cs
  let (d, cs) ← parse2 1 31 cs
  let cs ← expectChar sep cs
  let (h, cs) ← parse2 0 23 cs
  let cs ← expectChar ':' cs
  let (mi, cs) ← parse2 0 59 cs
  let cs ← expectChar ':' cs
  let (s, cs) ← parse2 0 59 cs
  let _ ← expectEndWith tail cs
  if 1 ≤ y ∧ d ≤ daysInMonth y mo then
    pure { year := y, month := mo, day := d, hour := h, minute := mi, second := s }
  else none

def pad2 (n : Nat) : List Char := [digitCh (n / 10 % 10), digitCh (n % 10)]

def pad4 (n : Nat) : List Char :=
  [digitCh (n / 1000 % 10), digitCh (n / 100 % 10), digitCh (n / 10 % 10), digitCh (n % 10)]

/-- strftime with format "%Y-%m-%dT%H:%M:%SZ". -/
def strftimeIso (dt : PyDateTime) : String :=
  String.mk (pad4 dt.year ++ '-' :: pad2 dt.month ++ '-' :: pad2 dt.day ++
    'T' :: pad2 dt.hour ++ ':' :: pad2 dt.minute ++ ':' :: pad2 dt.second ++ ['Z'])

/-- strftime with format "%Y-%m-%d". -/
def strftimeYmd (dt : PyDateTime) : String :=
  String.mk (pad4 dt.year ++ '-' :: pad2 dt.month ++ '-' :: pad2 dt.day)

/-- `ReviewesFetcher.convert_date_for_db`: drop the last ten characters of the
Gerrit timestamp (the dot and its nine fractional digits), parse the rest with
"%Y-%m-%d %H:%M:%S" and re-format it as "%Y-%m-%dT%H:%M:%SZ".  `none` models
the ValueError the Python raises on a malformed input. -/
def convert_date_for_db (str_date : String) : Option String :=
  (strptimeYmdHms ' ' [] (str_date.data.take (str_date.data.length - 10))).map strftimeIso

/-- `ReviewesFetcher.convert_date_for_query`: replace every T by a space,
delete every Z, parse with "%Y-%m-%d %H:%M:%S" and format as "%Y-%m-%d". -/
def convert_date_for_query (str_date : String) : Option String :=
  (strptimeYmdHms ' ' []
      ((str_date.data.map (fun c => if c = 'T' then ' ' else c)).filter (fun c => c != 'Z'))).map
    strftimeYmd

/-- Sum of the lengths of the months strictly before month m. -/
def daysBeforeMonth (y m : Nat) : Nat :=
  (List.take (m - 1) [31, 28, 31, 30, 31, 30, 31, 31, 30, 31, 30, 31]).foldl (· + ·) 0 +
    (if 2 < m ∧ isLeap y then 1 else 0)

/-- Proleptic Gregorian ordinal day count, as `datetime.date.toordinal`. -/
def toOrdinal (dt : PyDateTime) : Nat :=
  365 * (dt.year - 1) + (dt.year - 1) / 4 - (dt.year - 1) / 100 + (dt.year - 1) / 400 +
    daysBeforeMonth dt.year dt.month + (dt.day - 1)

/-- Seconds on the proleptic Gregorian time line; differences of this function
are exactly what `(a - b).total_seconds()` yields for two datetimes. -/
def secondsOf (dt : PyDateTime) : Int :=
  (toOrdinal dt : Int) * 86400 + (dt.hour : Int) * 3600 + (dt.minute : Int) * 60 +
    (dt.second : Int)

/-- The `timedelta` helper nested in `extract_objects`: parse both arguments
with "%Y-%m-%dT%H:%M:%SZ" and return the first minus the second in whole
seconds (the difference is integral, so the int() truncation is exact). -/
def timedelta (start finish : String) : Option Int := do
  let a ← strptimeYmdHms 'T' ['Z'] start.data
  let b ← strptimeYmdHms 'T' ['Z'] finish.data
  pure (secondsOf a - secondsOf b)

/-! ### The compiled message pattern

`re.compile(r"Patch Set \d+:( [^ ]+[+-]\d+)?\n\n.+")`, used with `re.match`,
i.e. anchored at the start of the message with arbitrary text allowed after
the matched part.  Acceptance of a backtracking regex without capture use is
language acceptance, computed here by collecting every possible remainder. -/

/-- Regular-expression syntax sufficient for the compiled message pattern.
Every repetition in the pattern ranges over a single-character class. -/
inductive RE where
  | eps : RE
  | chr : Char → RE
  | cls : (Char → Bool) → RE
  | seq : RE → RE → RE
  | alt : RE → RE → RE
  | plus : (Char → Bool) → RE

/-- Remainders after consuming one or more leading characters of class p. -/
def plusDrops (p : Char → Bool) (cs : List Char) : List (List Char) :=
  (List.range (cs.takeWhile p).length).map (fun i => cs.drop (i + 1))

/-- All remainders after matching a regex at the front of the input; the
pattern matches in the sense of `re.match` iff this list is nonempty. -/
def runRE : RE → List Char → List (List Char)
  | .eps, cs => [cs]
  | .chr _, [] => []
  | .chr c, x :: cs => if x = c then [cs] else []
  | .cls _, [] => []
  | .cls p, x :: cs => if p x then [cs] else []
  | .seq a b, cs => (runRE a cs).flatMap (runRE b)
  | .alt a b, cs => runRE a cs ++ runRE b cs
  | .plus p, cs => plusDrops p cs

def strLit : List Char → RE
  | [] => .eps
  | c :: cs => .seq (.chr c) (strLit cs)

def isDigitCh (c : Char) : Bool := (readDigit c).isSome

/-- The pattern `Patch Set \d+:( [^ ]+[+-]\d+)?\n\n.+` stored in
`ReviewesFetcher.message_re` (digits taken as ASCII digits). -/
def message_re : RE :=
  .seq (strLit "Patch Set ".data)
    (.seq (.plus isDigitCh)
      (.seq (.chr ':')
        (.seq (.alt (.seq (.chr ' ')
                  (.seq (.plus (fun c => c != ' '))
                    (.seq (.cls (fun c => c == '+' || c == '-'))
                      (.plus isDigitCh))))
                .eps)
          (.seq (.chr '\n')
            (.seq (.chr '\n')
              (.plus (fun c => c != '\n')))))))

/-- `self.message_re.match(text)` viewed as a boolean. -/
def message_re_match (s : String) : Bool := !(runRE message_re s.data).isEmpty


/-! ### Data model

`RawReview` types the fields of a raw Gerrit change record exactly as the
extraction code accesses them: a field read unconditionally is a plain field,
a field read through `.get` or an `in` test is an `Option`. -/

structure Account where
  name : Option String
  _account_id : Int
deriving DecidableEq

structure GerritMessage where
  id : String
  date : String
  author : Account
  message : String
deriving DecidableEq

/-- One voter entry of the `all` list below a label. -/
structure ApprovalEntry where
  date : Option String
  value : Option Int
  _account_id : Int
  name : Option String
deriving DecidableEq

structure LabelInfo where
  all : Option (List ApprovalEntry)
deriving DecidableEq

structure FileDetail where
  lines_inserted : Option Int
  lines_deleted : Option Int
deriving DecidableEq

structure CommitInfo where
  message : String
deriving DecidableEq

structure RevisionInfo where
  files : List (String × FileDetail)
  commit : CommitInfo
deriving DecidableEq

structure RawReview where
  id : String
  _number : Nat
  branch : String
  project : String
  owner : Account
  subject : String
  updated : String
  created : String
  submitted : Option String
  mergeable : Option String
  status : String
  assignee : Option Account
  insertions : Int
  deletions : Int
  revisions : List RevisionInfo
  messages : List GerritMessage
  labels : List (String × LabelInfo)
  submitter : Option Account
deriving DecidableEq

/-- One entry of `changes_files_details`. -/
structure FileChange where
  additions : Int
  deletions : Int
  path : String
deriving DecidableEq

/-- The Change dictionary built by `extract_pr_objects`.  `closed_at` and
`duration` are `none` when the corresponding key is never set (OPEN changes);
`merged_by` keeps an extra `Option` layer because the code either sets the key
to an attribution string, sets it to `None`, or leaves it unset: `none` models
the absent key, `some none` the key explicitly set to `None`. -/
structure ChangeRec where
  id : String
  number : Nat
  target_branch : String
  branch : String
  repository_prefix : String
  repository_fullname : String
  repository_shortname : String
  repository_fullname_and_number : String
  url : String
  author : String
  title : String
  updated_at : String
  created_at : String
  merged_at : Option String
  mergeable : Bool
  state : String
  labels : List String
  assignees : List String
  additions : Int
  deletions : Int
  commit_count : Nat
  changed_files : Nat
  changes_files_details : List FileChange
  text : String
  closed_at : Option String
  duration : Option Int
  merged_by : Option (Option String)
deriving DecidableEq

/-- An event dictionary; the change attributes inserted by
`insert_change_attributes` are ordinary fields. `approval` is only set on
review events (`none` elsewhere models the absent key). -/
structure EventRec where
  type : String
  id : String
  created_at : String
  author : Option String
  approval : Option String
  repository_prefix : String
  repository_fullname : String
  repository_shortname : String
  number : Nat
  repository_fullname_and_number : String
  on_author : String
  on_created_at : String
deriving DecidableEq

inductive PyObj where
  | change : ChangeRec → PyObj
  | event : EventRec → PyObj
deriving DecidableEq

/-! ### Extraction -/

/-- `self.status_map = {'NEW': 'OPEN', 'MERGED': 'MERGED', 'ABANDONED': 'CLOSED'}`;
`none` models the KeyError raised on any other status. -/
def statusMap (s : String) : Option String :=
  if s = "NEW" then some "OPEN"
  else if s = "MERGED" then some "MERGED"
  else if s = "ABANDONED" then some "CLOSED"
  else none

/-- Python `str.split('/')`. -/
def splitSlash : List Char → List (List Char)
  | [] => [[]]
  | c :: cs =>
    match splitSlash cs with
    | [] => [[]]
    | g :: gs => if c = '/' then [] :: g :: gs else (c :: g) :: gs

/-- Python `"/".join(...)`. -/
def joinSlash : List (List Char) → List Char
  | [] => []
  | [g] => g
  | g :: gs => g ++ '/' :: joinSlash gs

/-- `"%s/%s" % (name, _account_id)`: an absent name prints as `None`. -/
def attribution (a : Account) : String :=
  (match a.name with
   | some n => n
   | none => "None") ++ "/" ++ Int.repr a._account_id

/-- `convert_date_for_db(review.get('submitted')) if review.get('submitted')
else None`; the empty string is falsy. -/
def mergedAtOf (r : RawReview) : Option (Option String) :=
  match r.submitted with
  | some s => if s ≠ "" then (convert_date_for_db s).map some else some none
  | none => some none

/-- The two closed_at assignments guarded on the state. -/
def closedAtOf (state updated_at : String) (merged_at : Option String) : Option String :=
  if state = "CLOSED" then some updated_at
  else if state = "MERGED" then merged_at
  else none

/-- The duration assignment: only for CLOSED or MERGED changes, and the
`timedelta` call raises (inner `none`) when `closed_at` is `None` there. -/
def durationOf (state : String) (closed_at : Option String) (created_at : String) :
    Option (Option Int) :=
  if state = "CLOSED" ∨ state = "MERGED" then
    match closed_at with
    | some ca => (timedelta ca created_at).map some
    | none => none
  else some none

/-- The `merged_by` key: set to the submitter attribution on a merged change
carrying a submitter, left unset (`none`) on a merged change without one, and
set to `None` (`some none`) on every non-merged change. -/
def mergedByOf (state : String) (r : RawReview) : Option (Option String) :=
  if state = "MERGED" then
    match r.submitter with
    | some a => some (some (attribution a))
    | none => none
  else some none

/-- The fully assembled Change dictionary, given the values of the fallible
sub-computations. -/
def mkChangeCore (base_url : String) (r : RawReview) (updated_at created_at : String)
    (merged_at : Option String) (state : String) (rev0 : RevisionInfo)
    (duration : Option Int) : ChangeRec :=
  { id := r.id,
    number := r._number,
    target_branch := r.branch,
    branch := r.branch,
    repository_prefix := String.mk ((splitSlash r.project.data).headD []),
    repository_fullname := r.project,
    repository_shortname := String.mk (joinSlash ((splitSlash r.project.data).drop 1)),
    repository_fullname_and_number := r.project ++ "#" ++ Nat.repr r._number,
    url := base_url ++ "/" ++ Nat.repr r._number,
    author := attribution r.owner,
    title := r.subject,
    updated_at := updated_at,
    created_at := created_at,
    merged_at := merged_at,
    mergeable := decide (r.mergeable = some "true"),
    state := state,
    labels := [],
    assignees := (match r.assignee with
      | some a => [attribution a]
      | none => []),
    additions := r.insertions,
    deletions := r.deletions,
    commit_count := 1,
    changed_files := rev0.files.length,
    changes_files_details := rev0.files.map (fun pd =>
      { additions := pd.2.lines_inserted.getD 0,
        deletions := pd.2.lines_deleted.getD 0,
        path := pd.1 }),
    text := rev0.commit.message,
    closed_at := closedAtOf state updated_at merged_at,
    duration := duration,
    merged_by := mergedByOf state r }

/-- Construction of the Change record at the top of `extract_pr_objects`;
`none` models any exception raised while building it (bad dates, unknown
status, no revision, or the `timedelta` call on a missing merge date). -/
def mkChange (base_url : String) (r : RawReview) : Option ChangeRec :=
  match convert_date_for_db r.updated, convert_date_for_db r.created, mergedAtOf r,
      statusMap r.status, r.revisions.head? with
  | some updated_at, some created_at, some merged_at, some state, some rev0 =>
    match durationOf state (closedAtOf state updated_at merged_at) created_at with
    | some duration => some (mkChangeCore base_url r updated_at created_at merged_at state rev0 duration)
    | none => none
  | _, _, _, _, _ => none



/-- A fresh event dictionary before `insert_change_attributes` fills in the
parent change attributes. -/
def baseEvent (ty evId ca : String) (au : Option String) (ap : Option String) : EventRec :=
  { type := ty, id := evId, created_at := ca, author := au, approval := ap,
    repository_prefix := "", repository_fullname := "", repository_shortname := "",
    number := 0, repository_fullname_and_number := "", on_author := "", on_created_at := "" }

/-- `insert_change_attributes(obj, change)`: obj.update with the parent
change attributes. -/
def insert_change_attributes (e : EventRec) (change : ChangeRec) : EventRec :=
  { e with
    repository_prefix := ChangeRec.repository_prefix change,
    repository_fullname := change.repository_fullname,
    repository_shortname := change.repository_shortname,
    number := change.number,
    repository_fullname_and_number := change.repository_fullname_and_number,
    on_author := change.author,
    on_created_at := change.created_at }

/-- The unconditional ChangeCreatedEvent. -/
def createdEvent (change : ChangeRec) : EventRec :=
  insert_change_attributes
    (baseEvent "ChangeCreatedEvent" ("CCE" ++ change.id) change.created_at
      (some change.author) none)
    change

/-- The close event block: one ChangeMergedEvent or ChangeAbandonedEvent for a
MERGED or CLOSED change, nothing otherwise.  Its author is
`change.get('merged_by')`, i.e. the flattened `merged_by` key. -/
def closeEventsOf (change : ChangeRec) : Option (List EventRec) :=
  if change.state = "MERGED" ∨ change.state = "CLOSED" then
    match change.closed_at with
    | some ca =>
      some [insert_change_attributes
        (baseEvent
          (if change.state = "MERGED" then "ChangeMergedEvent" else "ChangeAbandonedEvent")
          ("CCLE" ++ change.id) ca change.merged_by.join none)
        change]
    | none => none
  else some []

def uploadedLit : List Char := "Uploaded patch set ".data

/-- Processing of one entry of the messages list inside `extract_pr_objects`:
the upload branch (checked first, with `continue`), then the comment branch
guarded by the compiled pattern, else nothing. -/
def messageEvents (change : ChangeRec) (comment : GerritMessage) : Option (List EventRec) :=
  if List.isPrefixOf uploadedLit comment.message.data then
    match convert_date_for_db comment.date with
    | some d =>
      some [insert_change_attributes
        (baseEvent "ChangeCommitPushedEvent" comment.id d
          (some (attribution comment.author)) none)
        change]
    | none => none
  else if message_re_match comment.message then
    match convert_date_for_db comment.date with
    | some d =>
      some [insert_change_attributes
        (baseEvent "ChangeCommentedEvent" comment.id d
          (some (attribution comment.author)) none)
        change]
    | none => none
  else some []

/-- `str(value)` starts with a minus sign. -/
def startsDash (s : String) : Bool :=
  match s.data with
  | c :: _ => c == '-'
  | [] => false

/-- `"+%s" % value if not str(value).startswith('-') else value`. -/
def approvalValueStr (v : Int) : String :=
  if startsDash (Int.repr v) then Int.repr v else "+" ++ Int.repr v

/-- Processing of one voter entry under one label: an event only when the
entry carries both a date and a value keys. -/
def voterEvents (change : ChangeRec) (label : String) (entry : ApprovalEntry) :
    Option (List EventRec) :=
  match entry.date, entry.value with
  | some d, some v =>
    match convert_date_for_db d with
    | some nd =>
      some [insert_change_attributes
        (baseEvent "ChangeReviewedEvent"
          (nd ++ "_" ++ label ++ "_" ++ Int.repr v ++ "_" ++ Int.repr entry._account_id)
          nd
          (some ((match entry.name with
            | some n => n
            | none => "None") ++ "/" ++ Int.repr entry._account_id))
          (some (label ++ approvalValueStr v)))
        change]
    | none => none
  | _, _ => some []

/-- `review['labels'][label].get('all', [])` walked in order. -/
def labelEvents (change : ChangeRec) (label : String) (info : LabelInfo) :
    Option (List EventRec) :=
  ((info.all.getD []).mapM (voterEvents change label)).map List.flatten

/-- `extract_pr_objects(review)`: the Change record, the created event, the
optional close event, the message events in message order, then the label
events; `none` models any exception escaping the per-review extraction. -/
def extract_pr_objects (base_url : String) (review : RawReview) : Option (List PyObj) :=
  match mkChange base_url review with
  | none => none
  | some change =>
    match closeEventsOf change with
    | none => none
    | some closeEvs =>
      match review.messages.mapM (messageEvents change) with
      | none => none
      | some msgEvss =>
        match review.labels.mapM (fun lb => labelEvents change lb.1 lb.2) with
        | none => none
        | some lblEvss =>
          some (PyObj.change change :: PyObj.event (createdEvent change) ::
            (closeEvs ++ msgEvss.flatten ++ lblEvss.flatten).map PyObj.event)

/-- `ReviewesFetcher.extract_objects`: every review contributes its extracted
objects, a review whose extraction raises is logged and contributes nothing. -/
def extract_objects (base_url : String) (reviewes : List RawReview) : List PyObj :=
  (reviewes.map (fun r => (extract_pr_objects base_url r).getD [])).flatten

/-! ### The pagination loop of `ReviewesFetcher.get`

The HTTP collaborator is modelled by the finite sequence of pages it hands to
successive requests, with an empty page once the sequence is exhausted.  Only
the `_more_changes` flag of a record is ever inspected by the loop. -/

structure PageItem where
  _more_changes : Bool
deriving DecidableEq

/-- Truthiness of `reviews[-1].get('_more_changes')`. -/
def lastFlag (reviews : List PageItem) : Bool :=
  match reviews.getLast? with
  | some r => r._more_changes
  | none => false

/-- The `while True` loop body of `get`: accumulate the page, re-request with
`start` set to the accumulated length while the last record carries the flag,
stop on an empty page or a missing flag.  Also logs every issued request as a
pair (page size, start offset). -/
def getLoop : List (List PageItem) → List PageItem → Nat → List (Nat × Nat) →
    List PageItem × List (Nat × Nat)
  | [], reviews, start_after, log => (reviews, log ++ [(100, start_after)])
  | page :: rest, reviews, start_after, log =>
    let log2 := log ++ [(100, start_after)]
    if page.isEmpty then (reviews, log2)
    else
      let reviews2 := reviews ++ page
      if lastFlag reviews2 then getLoop rest reviews2 reviews2.length log2
      else (reviews2, log2)

/-- `ReviewesFetcher.get`, from the first request with `start=0`. -/
def get (pages : List (List PageItem)) : List PageItem × List (Nat × Nat) :=
  getLoop pages [] 0 []

/-- The pages the loop actually consumes: every page up to and including the
first empty or unflagged one. -/
def consumedPages : List (List PageItem) → List (List PageItem)
  | [] => []
  | page :: rest =>
    if page.isEmpty then []
    else if lastFlag page then page :: consumedPages rest
    else [page]

/-- The request log the loop is expected to produce: one request per consumed
page at the cumulative offset, plus the final empty-page request when the
sequence runs out. -/
def expectedRequests : List (List PageItem) → Nat → List (Nat × Nat)
  | [], sofar => [(100, sofar)]
  | page :: rest, sofar =>
    if page.isEmpty then [(100, sofar)]
    else if lastFlag page then (100, sofar) :: expectedRequests rest (sofar + page.length)
    else [(100, sofar)]

/-- A well-formed mocked page sequence: every page but the last is nonempty
and announces more changes on its last record. -/
def chainedPages : List (List PageItem) → Bool
  | [] => true
  | [_] => true
  | page :: rest => !page.isEmpty && lastFlag page && chainedPages rest



/-! ### Lemmas about the pagination loop -/

lemma lastFlag_append (acc page : List PageItem) (h : page ≠ []) :
    lastFlag (acc ++ page) = lastFlag page := by
  unfold lastFlag
  rw [List.getLast?_append]
  cases hpl : page.getLast? with
  | none => exact absurd (List.getLast?_eq_none_iff.mp hpl) h
  | some r => simp [Option.or]

lemma getLoop_spec (pages : List (List PageItem)) :
    ∀ (acc : List PageItem) (log : List (Nat × Nat)),
      getLoop pages acc acc.length log =
        (acc ++ (consumedPages pages).flatten, log ++ expectedRequests pages acc.length) := by
  induction pages with
  | nil => intro acc log; simp [getLoop, consumedPages, expectedRequests]
  | cons page rest ih =>
    intro acc log
    rcases eq_or_ne page [] with hp | hp
    · subst hp
      simp [getLoop, consumedPages, expectedRequests]
    · have hne : page.isEmpty = false := by
        simpa using hp
      have hl : lastFlag (acc ++ page) = lastFlag page := lastFlag_append acc page hp
      by_cases hf : lastFlag page = true
      · have hrec := ih (acc ++ page) (log ++ [(100, acc.length)])
        simp only [getLoop, hne, hl, hf, consumedPages, expectedRequests,
          Bool.false_eq_true, if_false, if_true]
        rw [hrec]
        simp [List.append_assoc, List.length_append]
      · have hf2 : lastFlag page = false := by
          simpa using hf
        simp [getLoop, hne, hl, hf2, consumedPages, expectedRequests]

lemma consumed_flatten_of_chained : ∀ pages : List (List PageItem),
    chainedPages pages = true → (consumedPages pages).flatten = pages.flatten := by
  intro pages
  induction pages with
  | nil => intro _; simp [consumedPages]
  | cons page rest ih =>
    intro hc
    cases rest with
    | nil =>
      rcases eq_or_ne page [] with hp | hp
      · subst hp; simp [consumedPages]
      · have hne : page.isEmpty = false := by simpa using hp
        by_cases hf : lastFlag page = true
        · simp [consumedPages, hne, hf]
        · have hf2 : lastFlag page = false := by simpa using hf
          simp [consumedPages, hne, hf2]
    | cons q qs =>
      have hc' : (!page.isEmpty && lastFlag page && chainedPages (q :: qs)) = true := hc
      simp only [Bool.and_eq_true, Bool.not_eq_true'] at hc'
      obtain ⟨⟨h1, h2⟩, h3⟩ := hc'
      have hcons : consumedPages (page :: q :: qs) = page :: consumedPages (q :: qs) := by
        simp [consumedPages, h1, h2]
      rw [hcons, List.flatten_cons, ih h3]
      simp

/-- Claim C3: for any finite sequence of pages supplied by the HTTP
collaborator, `get` terminates (it is a total function) and returns exactly
the concatenation, in order, of the pages it consumes, which are the pages up
to and including the first empty or unflagged one; every issued request asks
for 100 records and starts at the cumulative number of records fetched so
far; and on a well-formed page sequence the result is the concatenation of
all the pages. -/
theorem claim_C3 (pages : List (List PageItem)) :
    get pages = ((consumedPages pages).flatten, expectedRequests pages 0) ∧
    (chainedPages pages = true → (get pages).1 = pages.flatten) := by
  have h := getLoop_spec pages [] []
  constructor
  · simpa [get] using h
  · intro hc
    have h2 := consumed_flatten_of_chained pages hc
    have h1 : get pages = ((consumedPages pages).flatten, expectedRequests pages 0) := by
      simpa [get] using h
    rw [h1, ← h2]

def pagesC3 : List (List PageItem) :=
  [[⟨true⟩, ⟨true⟩], [⟨true⟩], [⟨false⟩]]

/-- Witness for claim C3 at a concrete three-page sequence. -/
theorem claim_C3_witness :
    (get pagesC3).1 = pagesC3.flatten ∧
    (get pagesC3).2 = [(100, 0), (100, 2), (100, 3)] :=
  ⟨(claim_C3 pagesC3).2 (by decide), by decide⟩



/-! ### Lemmas about the date helpers -/

lemma readDigit_digitCh {k : Nat} (hk : k ≤ 9) : readDigit (digitCh k) = some k := by
  interval_cases k <;> decide

lemma ifT_digitCh (n : Nat) :
    (if digitCh (n % 10) = 'T' then ' ' else digitCh (n % 10)) = digitCh (n % 10) := by
  have h : n % 10 < 10 := Nat.mod_lt _ (by norm_num)
  generalize n % 10 = k at h
  interval_cases k <;> decide

lemma neZ_digitCh (n : Nat) : (digitCh (n % 10) != 'Z') = true := by
  have h : n % 10 < 10 := Nat.mod_lt _ (by norm_num)
  generalize n % 10 = k at h
  interval_cases k <;> decide

lemma stripTZ_strftimeIso (dt : PyDateTime) :
    ((strftimeIso dt).data.map (fun c => if c = 'T' then ' ' else c)).filter
        (fun c => c != 'Z') =
      pad4 dt.year ++ '-' :: pad2 dt.month ++ '-' :: pad2 dt.day ++
        ' ' :: pad2 dt.hour ++ ':' :: pad2 dt.minute ++ ':' :: pad2 dt.second := by
  simp [strftimeIso, pad4, pad2, ifT_digitCh, neZ_digitCh]

lemma parse4_pad4 {y : Nat} (hy : y ≤ 9999) (rest : List Char) :
    parse4 (pad4 y ++ rest) = some (y, rest) := by
  have h1 : y / 1000 % 10 ≤ 9 := by omega
  have h2 : y / 100 % 10 ≤ 9 := by omega
  have h3 : y / 10 % 10 ≤ 9 := by omega
  have h4 : y % 10 ≤ 9 := by omega
  simp only [pad4, List.cons_append, List.nil_append, parse4,
    readDigit_digitCh h1, readDigit_digitCh h2, readDigit_digitCh h3, readDigit_digitCh h4]
  simp only [Option.some.injEq, Prod.mk.injEq, and_true]
  omega

lemma parse2_pad2 {lo hi n : Nat} (h1 : lo ≤ n) (h2 : n ≤ hi) (h3 : n ≤ 99)
    (rest : List Char) : parse2 lo hi (pad2 n ++ rest) = some (n, rest) := by
  have ha : n / 10 % 10 ≤ 9 := by omega
  have hb : n % 10 ≤ 9 := by omega
  have hv : 10 * (n / 10 % 10) + n % 10 = n := by omega
  simp only [pad2, List.cons_append, List.nil_append, parse2,
    readDigit_digitCh ha, readDigit_digitCh hb, hv]
  rw [if_pos ⟨h1, h2⟩]

/-- The validity envelope under which a `PyDateTime` is both producible by
`strptimeYmdHms` and faithfully re-parsed from its strftime rendering. -/
def ValidDT (dt : PyDateTime) : Prop :=
  1 ≤ dt.year ∧ dt.year ≤ 9999 ∧ 1 ≤ dt.month ∧ dt.month ≤ 12 ∧ 1 ≤ dt.day ∧
    dt.day ≤ daysInMonth dt.year dt.month ∧ dt.hour ≤ 23 ∧ dt.minute ≤ 59 ∧ dt.second ≤ 59

instance (dt : PyDateTime) : Decidable (ValidDT dt) := by
  unfold ValidDT
  infer_instance

lemma daysInMonth_le (y m : Nat) : daysInMonth y m ≤ 31 := by
  unfold daysInMonth
  split_ifs <;> norm_num

lemma parse2_pad2_nil {lo hi n : Nat} (h1 : lo ≤ n) (h2 : n ≤ hi) (h3 : n ≤ 99) :
    parse2 lo hi (pad2 n) = some (n, []) := by
  have h := parse2_pad2 h1 h2 h3 []
  simpa using h

lemma expectChar_cons_self (c : Char) (cs : List Char) :
    expectChar c (c :: cs) = some cs := by
  simp [expectChar]

lemma expectEndWith_self (t : List Char) : expectEndWith t t = some () := by
  simp [expectEndWith]

set_option maxHeartbeats 1000000 in
lemma strptime_strftime (dt : PyDateTime) (h : ValidDT dt) :
    strptimeYmdHms ' ' []
      (pad4 dt.year ++ '-' :: pad2 dt.month ++ '-' :: pad2 dt.day ++ ' ' :: pad2 dt.hour ++
        ':' :: pad2 dt.minute ++ ':' :: pad2 dt.second) = some dt := by
  obtain ⟨h1, h2, h3, h4, h5, h6, h7, h8, h9⟩ := h
  have hd31 : dt.day ≤ 31 := le_trans h6 (daysInMonth_le dt.year dt.month)
  unfold strptimeYmdHms
  simp only [List.append_assoc, List.cons_append]
  simp only [Option.bind_eq_bind, Option.some_bind, expectChar_cons_self, expectEndWith_self,
    parse4_pad4 h2,
    parse2_pad2 h3 h4 (by omega : dt.month ≤ 99),
    parse2_pad2 h5 hd31 (by omega : dt.day ≤ 99),
    parse2_pad2 (Nat.zero_le dt.hour) h7 (by omega : dt.hour ≤ 99),
    parse2_pad2 (Nat.zero_le dt.minute) h8 (by omega : dt.minute ≤ 99),
    parse2_pad2_nil (Nat.zero_le dt.second) h9 (by omega : dt.second ≤ 99)]
  simp [h1, h6]

/-- Claim C9: `convert_date_for_query` of any well-formed ISO-8601 timestamp
"YYYY-MM-DDTHH:MM:SSZ" strips the T and Z markers and returns the bare date
"YYYY-MM-DD"; in particular "2020-04-08T00:00:00Z" yields "2020-04-08", and
`convert_date_for_db` of the Gerrit timestamp "2020-04-08 10:15:30.000000000"
(9-digit fractional suffix) yields "2020-04-08T10:15:30Z". -/
theorem claim_C9 :
    (∀ dt : PyDateTime, ValidDT dt →
      convert_date_for_query (strftimeIso dt) = some (strftimeYmd dt)) ∧
    convert_date_for_query "2020-04-08T00:00:00Z" = some "2020-04-08" ∧
    convert_date_for_db "2020-04-08 10:15:30.000000000" = some "2020-04-08T10:15:30Z" := by
  refine ⟨fun dt h => ?_, by decide, by decide⟩
  unfold convert_date_for_query
  rw [stripTZ_strftimeIso dt, strptime_strftime dt h]
  rfl

/-- Witness for claim C9 at the concrete timestamp 2021-03-05 01:02:03. -/
theorem claim_C9_witness :
    convert_date_for_query (strftimeIso ⟨2021, 3, 5, 1, 2, 3⟩) =
      some (strftimeYmd ⟨2021, 3, 5, 1, 2, 3⟩) :=
  claim_C9.1 ⟨2021, 3, 5, 1, 2, 3⟩ (by decide)



/-! ### str(value) and attribution lemmas -/

lemma toDigitsCore_head :
    ∀ (f n : Nat) (ds : List Char), 0 < f →
      ∃ k rest, Nat.toDigitsCore 10 f n ds = Nat.digitChar k :: rest ∧ k < 10 := by
  intro f
  induction f with
  | zero => intro n ds h; exact absurd h (by omega)
  | succ f ih =>
    intro n ds _
    show ∃ k rest,
      (if n / 10 = 0 then Nat.digitChar (n % 10) :: ds
       else Nat.toDigitsCore 10 f (n / 10) (Nat.digitChar (n % 10) :: ds)) =
        Nat.digitChar k :: rest ∧ k < 10
    by_cases h0 : n / 10 = 0
    · exact ⟨n % 10, ds, by rw [if_pos h0], by omega⟩
    · rcases Nat.eq_zero_or_pos f with hf | hf
      · subst hf
        exact ⟨n % 10, ds, by rw [if_neg h0]; rfl, by omega⟩
      · obtain ⟨k, rest, he, hk⟩ := ih (n / 10) (Nat.digitChar (n % 10) :: ds) hf
        exact ⟨k, rest, by rw [if_neg h0, he], hk⟩

lemma natRepr_head (n : Nat) :
    ∃ k rest, (Nat.repr n).data = Nat.digitChar k :: rest ∧ k < 10 := by
  obtain ⟨k, rest, he, hk⟩ := toDigitsCore_head (n + 1) n [] (by omega)
  exact ⟨k, rest, by simp [Nat.repr, Nat.toDigits, List.asString, he], hk⟩

lemma digitChar_ne_dash {k : Nat} (hk : k < 10) : (Nat.digitChar k == '-') = false := by
  interval_cases k <;> decide

lemma startsDash_natRepr (n : Nat) : startsDash (Nat.repr n) = false := by
  obtain ⟨k, rest, he, hk⟩ := natRepr_head n
  unfold startsDash
  rw [he]
  exact digitChar_ne_dash hk

lemma startsDash_intRepr (v : Int) : startsDash (Int.repr v) = decide (v < 0) := by
  cases v with
  | ofNat n =>
    rw [show Int.repr (Int.ofNat n) = Nat.repr n from rfl, startsDash_natRepr]
    symm
    rw [decide_eq_false_iff_not]
    exact Int.not_lt.mpr (Int.ofNat_nonneg n)
  | negSucc m =>
    rw [decide_eq_true (Int.negSucc_lt_zero m)]
    obtain ⟨k, rest, he, hk⟩ := natRepr_head (m + 1)
    show startsDash ("-" ++ Nat.repr (m + 1)) = true
    unfold startsDash
    rw [show ("-" ++ Nat.repr (m + 1)).data = '-' :: (Nat.repr (m + 1)).data from by
      simp [String.data_append]]
    rfl

lemma approvalValueStr_eq (v : Int) :
    approvalValueStr v = if v < 0 then Int.repr v else "+" ++ Int.repr v := by
  unfold approvalValueStr
  rw [startsDash_intRepr]
  by_cases h : v < 0
  · simp [h]
  · simp [h]

/-! ### Inversion lemmas for the extraction pipeline -/

lemma statusMap_mem {s st : String} (h : statusMap s = some st) :
    st = "OPEN" ∨ st = "MERGED" ∨ st = "CLOSED" := by
  unfold statusMap at h
  split_ifs at h <;> simp_all

lemma mkChange_inv {bu : String} {r : RawReview} {c : ChangeRec}
    (h : mkChange bu r = some c) :
    ∃ updated created merged state rev0 dur,
      convert_date_for_db r.updated = some updated ∧
      convert_date_for_db r.created = some created ∧
      mergedAtOf r = some merged ∧
      statusMap r.status = some state ∧
      r.revisions.head? = some rev0 ∧
      durationOf state (closedAtOf state updated merged) created = some dur ∧
      c = mkChangeCore bu r updated created merged state rev0 dur := by
  unfold mkChange at h
  split at h
  next updated created merged state rev0 heq1 heq2 heq3 heq4 heq5 =>
    split at h
    next dur heq6 =>
      cases h
      exact ⟨updated, created, merged, state, rev0, dur,
        heq1, heq2, heq3, heq4, heq5, heq6, rfl⟩
    next heq6 => exact Option.noConfusion h
  next hne => exact Option.noConfusion h

lemma durationOf_some_closed {state : String} {closed : Option String} {created : String}
    {dur : Option Int} (h : durationOf state closed created = some dur)
    (hs : state = "CLOSED" ∨ state = "MERGED") :
    ∃ ca d, closed = some ca ∧ timedelta ca created = some d ∧ dur = some d := by
  unfold durationOf at h
  rw [if_pos hs] at h
  cases closed with
  | none => exact Option.noConfusion h
  | some ca =>
    dsimp only at h
    cases ht : timedelta ca created with
    | none => rw [ht] at h; simp at h
    | some d =>
      rw [ht] at h
      simp only [Option.map_some'] at h
      exact ⟨ca, d, rfl, ht, (Option.some.inj h).symm⟩

lemma durationOf_none_state {state : String} {closed : Option String} {created : String}
    {dur : Option Int} (h : durationOf state closed created = some dur)
    (hs : ¬(state = "CLOSED" ∨ state = "MERGED")) : dur = none := by
  unfold durationOf at h
  rw [if_neg hs] at h
  cases h
  rfl

lemma timedelta_inv {s t : String} {d : Int} (h : timedelta s t = some d) :
    ∃ a b, strptimeYmdHms 'T' ['Z'] s.data = some a ∧
      strptimeYmdHms 'T' ['Z'] t.data = some b ∧ d = secondsOf a - secondsOf b := by
  unfold timedelta at h
  cases ha : strptimeYmdHms 'T' ['Z'] s.data with
  | none => rw [ha] at h; exact Option.noConfusion h
  | some a =>
    cases hb : strptimeYmdHms 'T' ['Z'] t.data with
    | none => rw [ha, hb] at h; exact Option.noConfusion h
    | some b =>
      rw [ha, hb] at h
      cases h
      exact ⟨a, b, rfl, rfl, rfl⟩

lemma extract_inv {bu : String} {r : RawReview} {objs : List PyObj}
    (h : extract_pr_objects bu r = some objs) :
    ∃ change closeEvs msgEvss lblEvss,
      mkChange bu r = some change ∧
      closeEventsOf change = some closeEvs ∧
      r.messages.mapM (messageEvents change) = some msgEvss ∧
      r.labels.mapM (fun lb => labelEvents change lb.1 lb.2) = some lblEvss ∧
      objs = PyObj.change change :: PyObj.event (createdEvent change) ::
        (closeEvs ++ msgEvss.flatten ++ lblEvss.flatten).map PyObj.event := by
  unfold extract_pr_objects at h
  split at h
  · exact Option.noConfusion h
  next change heq1 =>
    split at h
    · exact Option.noConfusion h
    next closeEvs heq2 =>
      split at h
      · exact Option.noConfusion h
      next msgEvss heq3 =>
        split at h
        · exact Option.noConfusion h
        next lblEvss heq4 =>
          cases h
          exact ⟨change, closeEvs, msgEvss, lblEvss, heq1, heq2, heq3, heq4, rfl⟩

lemma change_of_mem {bu : String} {r : RawReview} {objs : List PyObj} {c : ChangeRec}
    (h : extract_pr_objects bu r = some objs) (hm : PyObj.change c ∈ objs) :
    mkChange bu r = some c := by
  obtain ⟨change, closeEvs, msgEvss, lblEvss, h1, _, _, _, h5⟩ := extract_inv h
  subst h5
  rcases List.mem_cons.mp hm with he | hm2
  · cases he
    exact h1
  · rcases List.mem_cons.mp hm2 with he | hm3
    · exact PyObj.noConfusion he
    · obtain ⟨e, _, he⟩ := List.mem_map.mp hm3
      exact PyObj.noConfusion he



/-! ### Concrete sample records used by witnesses and counterexamples -/

def acctAlice : Account := { name := some "alice", _account_id := 7 }

def acctBob : Account := { name := some "bob", _account_id := 8 }

def revOne : RevisionInfo :=
  { files := [("a.py", { lines_inserted := some 3, lines_deleted := none })],
    commit := { message := "Fix thing" } }

/-- A plain open change: status NEW, no messages, no votes. -/
def rNew : RawReview :=
  { id := "I1", _number := 42, branch := "main", project := "zuul/zuul",
    owner := acctAlice, subject := "Fix",
    updated := "2020-04-10 10:00:00.000000000",
    created := "2020-04-08 10:15:30.000000000",
    submitted := none, mergeable := none, status := "NEW", assignee := none,
    insertions := 3, deletions := 1, revisions := [revOne],
    messages := [], labels := [], submitter := none }

/-- A merged change carrying both a merge date and a submitter. -/
def rMergedSub : RawReview :=
  { rNew with
    status := "MERGED"
    submitted := some "2020-04-11 10:00:00.000000000"
    submitter := some acctBob }

/-- A merged change with a merge date but no submitter attribution. -/
def rMergedNoSubmitter : RawReview := { rMergedSub with submitter := none }

/-- A merged change whose record lacks the submitted timestamp. -/
def rMergedNoSubmitted : RawReview := { rMergedSub with submitted := none }

/-- A change with a status outside the three known values. -/
def rBadStatus : RawReview := { rNew with status := "DRAFT" }

def objsMergedSub : List PyObj := (extract_pr_objects "u" rMergedSub).getD []

def cMergedSub : ChangeRec := (mkChange "u" rMergedSub).get (by decide)

/-- Claim C4: for every successfully extracted change, `closed_at` is set iff
the state is MERGED or CLOSED, equals `merged_at` when MERGED and
`updated_at` when CLOSED, and exactly in those two states `duration` is
present and equals `closed_at` minus `created_at` in whole seconds. -/
theorem claim_C4 (bu : String) (r : RawReview) (objs : List PyObj) (c : ChangeRec)
    (h : extract_pr_objects bu r = some objs) (hm : PyObj.change c ∈ objs) :
    (c.closed_at.isSome ↔ (c.state = "MERGED" ∨ c.state = "CLOSED")) ∧
    (c.state = "MERGED" → c.closed_at = c.merged_at) ∧
    (c.state = "CLOSED" → c.closed_at = some c.updated_at) ∧
    (c.duration.isSome ↔ (c.state = "MERGED" ∨ c.state = "CLOSED")) ∧
    (∀ ca, c.closed_at = some ca →
      ∃ a b, strptimeYmdHms 'T' ['Z'] ca.data = some a ∧
        strptimeYmdHms 'T' ['Z'] c.created_at.data = some b ∧
        c.duration = some (secondsOf a - secondsOf b)) := by
  have hc : mkChange bu r = some c := change_of_mem h hm
  obtain ⟨u, cr, m, st, rv, dur, h1, h2, h3, h4, h5, h6, h7⟩ := mkChange_inv hc
  subst h7
  simp only [mkChangeCore]
  rcases statusMap_mem h4 with hst | hst | hst <;> subst hst
  · -- OPEN
    have hdur : dur = none := durationOf_none_state h6 (by decide)
    subst hdur
    refine ⟨?_, ?_, ?_, ?_, ?_⟩
    · show (none : Option String).isSome = true ↔ ("OPEN" = "MERGED" ∨ "OPEN" = "CLOSED")
      decide
    · intro hst; exact absurd hst (by decide)
    · intro hst; exact absurd hst (by decide)
    · show (none : Option Int).isSome = true ↔ ("OPEN" = "MERGED" ∨ "OPEN" = "CLOSED")
      decide
    · intro ca hca
      have hca2 : (none : Option String) = some ca := hca
      exact Option.noConfusion hca2
  · -- MERGED
    obtain ⟨ca, d, hca, htd, hdur⟩ := durationOf_some_closed h6 (Or.inr rfl)
    subst hdur
    have hm2 : m = some ca := hca
    refine ⟨?_, ?_, ?_, ?_, ?_⟩
    · show m.isSome = true ↔ ("MERGED" = "MERGED" ∨ "MERGED" = "CLOSED")
      rw [hm2]
      simp
    · intro _; rfl
    · intro hst; exact absurd hst (by decide)
    · show (some d).isSome = true ↔ ("MERGED" = "MERGED" ∨ "MERGED" = "CLOSED")
      simp
    · intro ca2 hca2
      have hca2' : m = some ca2 := hca2
      rw [hm2] at hca2'
      cases hca2'
      obtain ⟨a, b, hpa, hpb, hd⟩ := timedelta_inv htd
      exact ⟨a, b, hpa, hpb, by rw [hd]⟩
  · -- CLOSED
    obtain ⟨ca, d, hca, htd, hdur⟩ := durationOf_some_closed h6 (Or.inl rfl)
    subst hdur
    have hu2 : some u = some ca := hca
    cases hu2
    refine ⟨?_, ?_, ?_, ?_, ?_⟩
    · show (some u).isSome = true ↔ ("CLOSED" = "MERGED" ∨ "CLOSED" = "CLOSED")
      simp
    · intro hst; exact absurd hst (by decide)
    · intro _; rfl
    · show (some d).isSome = true ↔ ("CLOSED" = "MERGED" ∨ "CLOSED" = "CLOSED")
      simp
    · intro ca2 hca2
      have hca2' : some u = some ca2 := hca2
      cases hca2'
      obtain ⟨a, b, hpa, hpb, hd⟩ := timedelta_inv htd
      exact ⟨a, b, hpa, hpb, by rw [hd]⟩

/-- Witness for claim C4 at a concrete merged change. -/
theorem claim_C4_witness :
    ChangeRec.closed_at cMergedSub = ChangeRec.merged_at cMergedSub ∧
    (ChangeRec.duration cMergedSub).isSome = true :=
  ⟨(claim_C4 "u" rMergedSub objsMergedSub cMergedSub (by decide) (by decide)).2.1 (by decide),
   (claim_C4 "u" rMergedSub objsMergedSub cMergedSub (by decide)
       (by decide)).2.2.2.1.mpr (Or.inl (by decide))⟩



/-! ### Batch-level lemmas -/

lemma extract_objects_skip (bu : String) (xs ys : List RawReview) (r : RawReview)
    (h : extract_pr_objects bu r = none) :
    extract_objects bu (xs ++ r :: ys) = extract_objects bu xs ++ extract_objects bu ys := by
  unfold extract_objects
  rw [List.map_append, List.map_cons, h]
  simp

lemma mem_extract_objects {bu : String} {rs : List RawReview} {o : PyObj}
    (h : o ∈ extract_objects bu rs) :
    ∃ r2 objs, extract_pr_objects bu r2 = some objs ∧ o ∈ objs := by
  unfold extract_objects at h
  rw [List.mem_flatten] at h
  obtain ⟨l, hl, ho⟩ := h
  rw [List.mem_map] at hl
  obtain ⟨r2, hr2, hl2⟩ := hl
  cases he : extract_pr_objects bu r2 with
  | none =>
    rw [he] at hl2
    simp at hl2
    subst hl2
    exact absurd ho (by simp)
  | some objs =>
    rw [he] at hl2
    simp at hl2
    subst hl2
    exact ⟨r2, objs, he, ho⟩

lemma mkChange_merged_no_submitted {bu : String} {r : RawReview}
    (h1 : r.status = "MERGED") (h2 : r.submitted = none ∨ r.submitted = some "") :
    mkChange bu r = none := by
  have hm : mergedAtOf r = some none := by
    unfold mergedAtOf
    rcases h2 with h | h <;> rw [h]
    simp
  unfold mkChange
  split
  next u cr m st rv heq1 heq2 heq3 heq4 heq5 =>
    rw [hm] at heq3
    have hm2 : m = none := (Option.some.inj heq3).symm
    rw [h1] at heq4
    have heq4' : some "MERGED" = some st := heq4
    have hst : st = "MERGED" := (Option.some.inj heq4').symm
    subst hm2
    subst hst
    have hd : durationOf "MERGED" (closedAtOf "MERGED" u none) cr = none := rfl
    rw [hd]
  next => rfl

/-- Claim C10: extraction of a raw change with status MERGED but no truthy
submitted field fails (its merged_at, hence closed_at, is missing and the
duration computation raises), so the record is skipped and contributes
nothing; consequently every Change with state MERGED actually returned by
extract_objects has a non-null merged_at and closed_at. -/
theorem claim_C10 (bu : String) (xs ys : List RawReview) (r : RawReview)
    (h1 : r.status = "MERGED") (h2 : r.submitted = none ∨ r.submitted = some "") :
    extract_pr_objects bu r = none ∧
    extract_objects bu (xs ++ r :: ys) = extract_objects bu xs ++ extract_objects bu ys ∧
    (∀ bu2 rs c, PyObj.change c ∈ extract_objects bu2 rs → c.state = "MERGED" →
      c.merged_at.isSome = true ∧ c.closed_at.isSome = true) := by
  have hnone : extract_pr_objects bu r = none := by
    unfold extract_pr_objects
    rw [mkChange_merged_no_submitted h1 h2]
  refine ⟨hnone, extract_objects_skip bu xs ys r hnone, ?_⟩
  intro bu2 rs c hmem hst
  obtain ⟨r2, objs, he, hmem2⟩ := mem_extract_objects hmem
  have hc := change_of_mem he hmem2
  obtain ⟨u, cr, m, st, rv, dur, g1, g2, g3, g4, g5, g6, g7⟩ := mkChange_inv hc
  subst g7
  have hst2 : st = "MERGED" := hst
  subst hst2
  obtain ⟨ca, d, hca, htd, hdur⟩ := durationOf_some_closed g6 (Or.inr rfl)
  have hm2 : m = some ca := hca
  constructor
  · show m.isSome = true
    rw [hm2]
    rfl
  · show (closedAtOf "MERGED" u m).isSome = true
    have hred : closedAtOf "MERGED" u m = m := rfl
    rw [hred, hm2]
    rfl

/-- Witness for claim C10 at a concrete merged change without submitted. -/
theorem claim_C10_witness :
    extract_pr_objects "u" rMergedNoSubmitted = none ∧
    extract_objects "u" ([] ++ rMergedNoSubmitted :: [rNew]) =
      extract_objects "u" [] ++ extract_objects "u" [rNew] ∧
    (∀ bu2 rs c, PyObj.change c ∈ extract_objects bu2 rs → c.state = "MERGED" →
      c.merged_at.isSome = true ∧ c.closed_at.isSome = true) :=
  claim_C10 "u" [] [rNew] rMergedNoSubmitted (by decide) (Or.inl (by decide))

/-- Claim C6: extract_objects is total; a record whose extraction fails (for
example because its status is outside the three known values) contributes
nothing while every other record's objects are still returned. -/
theorem claim_C6 (bu : String) (xs ys : List RawReview) (r : RawReview)
    (h : r.status ≠ "NEW" ∧ r.status ≠ "MERGED" ∧ r.status ≠ "ABANDONED") :
    extract_pr_objects bu r = none ∧
    extract_objects bu (xs ++ r :: ys) = extract_objects bu xs ++ extract_objects bu ys ∧
    (∀ bu2 xs2 ys2 r2, extract_pr_objects bu2 r2 = none →
      extract_objects bu2 (xs2 ++ r2 :: ys2) =
        extract_objects bu2 xs2 ++ extract_objects bu2 ys2) := by
  have hsm : statusMap r.status = none := by
    unfold statusMap
    rw [if_neg h.1, if_neg h.2.1, if_neg h.2.2]
  have hnone : extract_pr_objects bu r = none := by
    have hmk : mkChange bu r = none := by
      unfold mkChange
      split
      next u cr m st rv heq1 heq2 heq3 heq4 heq5 =>
        rw [hsm] at heq4
        exact Option.noConfusion heq4
      next => rfl
    unfold extract_pr_objects
    rw [hmk]
  exact ⟨hnone, extract_objects_skip bu xs ys r hnone,
    fun bu2 xs2 ys2 r2 h2 => extract_objects_skip bu2 xs2 ys2 r2 h2⟩

/-- Witness for claim C6 at a concrete unknown-status record inside a batch. -/
theorem claim_C6_witness :
    extract_pr_objects "u" rBadStatus = none ∧
    extract_objects "u" ([] ++ rBadStatus :: [rNew]) =
      extract_objects "u" [] ++ extract_objects "u" [rNew] ∧
    (∀ bu2 xs2 ys2 r2, extract_pr_objects bu2 r2 = none →
      extract_objects bu2 (xs2 ++ r2 :: ys2) =
        extract_objects bu2 xs2 ++ extract_objects bu2 ys2) :=
  claim_C6 "u" [] [rNew] rBadStatus ⟨by decide, by decide, by decide⟩



def objsNew : List PyObj := (extract_pr_objects "u" rNew).getD []

/-- Claim C7: for every successfully extracted change, the output list is the
Change record, then the created event with id "CCE"+id, created_at and author
of the change, then the close event exactly when the state is MERGED or
CLOSED, then the message events in message order, then the label events; in
particular a NEW change with no qualifying messages or votes yields exactly
the Change (state OPEN) and the created event. -/
theorem claim_C7 (bu : String) (r : RawReview) (objs : List PyObj)
    (h : extract_pr_objects bu r = some objs) :
    ∃ c closeEvs msgEvss lblEvss,
      mkChange bu r = some c ∧
      closeEventsOf c = some closeEvs ∧
      r.messages.mapM (messageEvents c) = some msgEvss ∧
      r.labels.mapM (fun lb => labelEvents c lb.1 lb.2) = some lblEvss ∧
      objs = PyObj.change c :: PyObj.event (createdEvent c) ::
        (closeEvs ++ msgEvss.flatten ++ lblEvss.flatten).map PyObj.event ∧
      (createdEvent c).type = "ChangeCreatedEvent" ∧
      (createdEvent c).id = "CCE" ++ c.id ∧
      (createdEvent c).created_at = c.created_at ∧
      (createdEvent c).author = some c.author ∧
      (closeEvs = [] ↔ ¬(c.state = "MERGED" ∨ c.state = "CLOSED")) := by
  obtain ⟨c, closeEvs, msgEvss, lblEvss, h1, h2, h3, h4, h5⟩ := extract_inv h
  refine ⟨c, closeEvs, msgEvss, lblEvss, h1, h2, h3, h4, h5, rfl, rfl, rfl, rfl, ?_⟩
  unfold closeEventsOf at h2
  by_cases hs : c.state = "MERGED" ∨ c.state = "CLOSED"
  · rw [if_pos hs] at h2
    cases hclosed : c.closed_at with
    | none =>
      rw [hclosed] at h2
      exact Option.noConfusion h2
    | some ca =>
      rw [hclosed] at h2
      cases h2
      constructor
      · intro hnil
        exact absurd hnil (by simp)
      · intro hns
        exact absurd hs hns
  · rw [if_neg hs] at h2
    cases h2
    exact ⟨fun _ => hs, fun _ => rfl⟩

/-- Witness for claim C7 at a concrete NEW change with no messages or votes:
the output is exactly the Change (state OPEN) and the created event. -/
theorem claim_C7_witness :
    (∃ c closeEvs msgEvss lblEvss,
      mkChange "u" rNew = some c ∧
      closeEventsOf c = some closeEvs ∧
      rNew.messages.mapM (messageEvents c) = some msgEvss ∧
      rNew.labels.mapM (fun lb => labelEvents c lb.1 lb.2) = some lblEvss ∧
      objsNew = PyObj.change c :: PyObj.event (createdEvent c) ::
        (closeEvs ++ msgEvss.flatten ++ lblEvss.flatten).map PyObj.event ∧
      (createdEvent c).type = "ChangeCreatedEvent" ∧
      (createdEvent c).id = "CCE" ++ c.id ∧
      (createdEvent c).created_at = c.created_at ∧
      (createdEvent c).author = some c.author ∧
      (closeEvs = [] ↔ ¬(c.state = "MERGED" ∨ c.state = "CLOSED"))) ∧
    objsNew.length = 2 ∧
    Option.map ChangeRec.state (mkChange "u" rNew) = some "OPEN" :=
  ⟨claim_C7 "u" rNew objsNew (by decide), by decide, by decide⟩

def cMergedNoSubmitter : ChangeRec := (mkChange "u" rMergedNoSubmitter).get (by decide)

/-- Claim C5, amended: the merged_by key is set to the submitter attribution
on a MERGED change carrying a submitter and set to null on every non-MERGED
change, but on a MERGED change without a submitter the key is left entirely
absent from the record (reads through .get, as the close event author does,
then see null). -/
theorem claim_C5 (bu : String) (r : RawReview) (c : ChangeRec)
    (h : mkChange bu r = some c) :
    (c.state ≠ "MERGED" → c.merged_by = some none) ∧
    (c.state = "MERGED" → r.submitter = none → c.merged_by = none) ∧
    (∀ a, c.state = "MERGED" → r.submitter = some a →
      c.merged_by = some (some (attribution a))) ∧
    (∀ closeEvs, closeEventsOf c = some closeEvs →
      ∀ e ∈ closeEvs, e.author = c.merged_by.join) := by
  obtain ⟨u, cr, m, st, rv, dur, h1, h2, h3, h4, h5, h6, h7⟩ := mkChange_inv h
  refine ⟨?_, ?_, ?_, ?_⟩
  · intro hne
    have hne' : st ≠ "MERGED" := by
      intro he
      exact hne (by rw [h7]; exact he)
    rw [h7]
    show mergedByOf st r = some none
    unfold mergedByOf
    rw [if_neg hne']
  · intro hst hsub
    have hst' : st = "MERGED" := by rw [h7] at hst; exact hst
    subst hst'
    rw [h7]
    show mergedByOf "MERGED" r = none
    unfold mergedByOf
    rw [if_pos rfl, hsub]
  · intro a hst hsub
    have hst' : st = "MERGED" := by rw [h7] at hst; exact hst
    subst hst'
    rw [h7]
    show mergedByOf "MERGED" r = some (some (attribution a))
    unfold mergedByOf
    rw [if_pos rfl, hsub]
  · intro closeEvs h2 e he
    unfold closeEventsOf at h2
    by_cases hs : c.state = "MERGED" ∨ c.state = "CLOSED"
    · rw [if_pos hs] at h2
      cases hclosed : c.closed_at with
      | none =>
        rw [hclosed] at h2
        exact Option.noConfusion h2
      | some ca =>
        rw [hclosed] at h2
        cases h2
        rcases List.mem_singleton.mp he with rfl
        rfl
    · rw [if_neg hs] at h2
      cases h2
      exact absurd he (by simp)

/-- Counterexample to claim C5 as stated: on a concrete MERGED change without
a submitter, extraction succeeds but the resulting Change record does not
carry a merged_by key at all (modelled as the outer `none`), rather than
carrying one set to null (`some none`). -/
theorem claim_C5_counterexample :
    mkChange "u" rMergedNoSubmitter = some cMergedNoSubmitter ∧
    ChangeRec.state cMergedNoSubmitter = "MERGED" ∧
    rMergedNoSubmitter.submitter = none ∧
    ChangeRec.merged_by cMergedNoSubmitter = none ∧
    ChangeRec.merged_by cMergedNoSubmitter ≠ some none := by
  decide

/-- Witness for claim C5 at a merged change with a submitter and at one
without. -/
theorem claim_C5_witness :
    ChangeRec.merged_by cMergedSub = some (some (attribution acctBob)) ∧
    ChangeRec.merged_by cMergedNoSubmitter = none :=
  ⟨(claim_C5 "u" rMergedSub cMergedSub (by decide)).2.2.1 acctBob (by decide) (by decide),
   (claim_C5 "u" rMergedNoSubmitter cMergedNoSubmitter (by decide)).2.1 (by decide)
     (by decide)⟩



def cNew : ChangeRec := (mkChange "u" rNew).get (by decide)

def msgCommented : GerritMessage :=
  { id := "m1", date := "2020-04-08 11:00:00.000000000", author := acctBob,
    message := "Patch Set 3: Code-Review+2\n\nLooks good" }

def msgVoteOnly : GerritMessage :=
  { msgCommented with
    id := "m2"
    message := "Patch Set 3: Code-Review+2" }

def msgUploaded : GerritMessage :=
  { msgCommented with
    id := "m3"
    message := "Uploaded patch set 2." }

def evsCommented : List EventRec := (messageEvents cNew msgCommented).getD []

def evsVoteOnly : List EventRec := (messageEvents cNew msgVoteOnly).getD []

def evsUploaded : List EventRec := (messageEvents cNew msgUploaded).getD []

/-- Claim C1: for a message whose text does not begin with
"Uploaded patch set ", a ChangeCommentedEvent is emitted iff the text matches
the compiled grammar (a "Patch Set <digits>:" header, optionally one vote
token <label><sign><digits>, a blank line, then at least one further
non-empty line); on a match the single emitted event carries the message id,
normalized date and author. -/
theorem claim_C1 (c : ChangeRec) (m : GerritMessage) (evs : List EventRec)
    (hup : List.isPrefixOf uploadedLit m.message.data = false)
    (h : messageEvents c m = some evs) :
    ((∃ e, e ∈ evs ∧ e.type = "ChangeCommentedEvent") ↔
      message_re_match m.message = true) ∧
    (message_re_match m.message = false → evs = []) ∧
    (∀ d, message_re_match m.message = true → convert_date_for_db m.date = some d →
      evs = [insert_change_attributes
        (baseEvent "ChangeCommentedEvent" m.id d (some (attribution m.author)) none) c]) := by
  unfold messageEvents at h
  rw [if_neg (by simp [hup])] at h
  by_cases hre : message_re_match m.message = true
  · rw [if_pos hre] at h
    cases hd : convert_date_for_db m.date with
    | none =>
      rw [hd] at h
      exact Option.noConfusion h
    | some d =>
      rw [hd] at h
      cases h
      refine ⟨⟨fun _ => hre, fun _ => ⟨_, List.mem_singleton.mpr rfl, rfl⟩⟩, ?_, ?_⟩
      · intro hf
        rw [hre] at hf
        exact Bool.noConfusion hf
      · intro d2 _ hd2
        cases hd2
        rfl
  · have hre' : message_re_match m.message = false := by
      cases hb : message_re_match m.message
      · rfl
      · exact absurd hb hre
    rw [if_neg (by simp [hre'])] at h
    cases h
    refine ⟨⟨?_, fun ht => absurd ht hre⟩, fun _ => rfl, fun d ht => absurd ht hre⟩
    intro he
    obtain ⟨e, hmem, _⟩ := he
    exact absurd hmem (by simp)

/-- Witness for claim C1: the message "Patch Set 3: Code-Review+2" followed
by a blank line and "Looks good" produces a ChangeCommentedEvent, the
vote-only message "Patch Set 3: Code-Review+2" produces no event. -/
theorem claim_C1_witness :
    (∃ e, e ∈ evsCommented ∧ e.type = "ChangeCommentedEvent") ∧ evsVoteOnly = [] :=
  ⟨(claim_C1 cNew msgCommented evsCommented (by decide) (by decide)).1.mpr (by decide),
   (claim_C1 cNew msgVoteOnly evsVoteOnly (by decide) (by decide)).2.1 (by decide)⟩

/-- Claim C8: a message beginning with "Uploaded patch set " yields exactly
one ChangeCommitPushedEvent reusing the upstream message id verbatim, with
the normalized message date and the message author, and never a
ChangeCommentedEvent. -/
theorem claim_C8 (c : ChangeRec) (m : GerritMessage) (evs : List EventRec)
    (hup : List.isPrefixOf uploadedLit m.message.data = true)
    (h : messageEvents c m = some evs) :
    ∃ d, convert_date_for_db m.date = some d ∧
      evs = [insert_change_attributes
        (baseEvent "ChangeCommitPushedEvent" m.id d (some (attribution m.author)) none) c] ∧
      (∀ e, e ∈ evs → e.type ≠ "ChangeCommentedEvent") := by
  unfold messageEvents at h
  rw [if_pos hup] at h
  cases hd : convert_date_for_db m.date with
  | none =>
    rw [hd] at h
    exact Option.noConfusion h
  | some d =>
    rw [hd] at h
    cases h
    refine ⟨d, rfl, rfl, ?_⟩
    intro e he
    rcases List.mem_singleton.mp he with rfl
    intro ht
    exact absurd (show ("ChangeCommitPushedEvent" : String) = "ChangeCommentedEvent" from ht)
      (by decide)

/-- Witness for claim C8 at a concrete upload message. -/
theorem claim_C8_witness :
    ∃ d, convert_date_for_db msgUploaded.date = some d ∧
      evsUploaded = [insert_change_attributes
        (baseEvent "ChangeCommitPushedEvent" msgUploaded.id d
          (some (attribution msgUploaded.author)) none) cNew] ∧
      (∀ e, e ∈ evsUploaded → e.type ≠ "ChangeCommentedEvent") :=
  claim_C8 cNew msgUploaded evsUploaded (by decide) (by decide)

/-- Claim C2: one voter entry under a label yields a ChangeReviewedEvent iff
it carries both a date and a value; the event id is the underscore-joined
4-tuple of normalized date, label, value and account id, its created_at is
the normalized date, and its approval is label followed by the value with an
explicit plus sign for non-negative values and the existing minus sign for
negative ones. -/
theorem claim_C2 (c : ChangeRec) (label : String) (entry : ApprovalEntry)
    (evs : List EventRec) (h : voterEvents c label entry = some evs) :
    ((evs ≠ []) ↔ (entry.date.isSome = true ∧ entry.value.isSome = true)) ∧
    (∀ d v, entry.date = some d → entry.value = some v →
      ∃ nd, convert_date_for_db d = some nd ∧
        evs = [insert_change_attributes
          (baseEvent "ChangeReviewedEvent"
            (nd ++ "_" ++ label ++ "_" ++ Int.repr v ++ "_" ++ Int.repr entry._account_id)
            nd
            (some ((match entry.name with
              | some n => n
              | none => "None") ++ "/" ++ Int.repr entry._account_id))
            (some (label ++ (if v < 0 then Int.repr v else "+" ++ Int.repr v)))) c]) := by
  unfold voterEvents at h
  split at h
  next d v hdd hvv =>
    cases hnd : convert_date_for_db d with
    | none =>
      rw [hnd] at h
      exact Option.noConfusion h
    | some nd =>
      rw [hnd] at h
      cases h
      constructor
      · exact ⟨fun _ => ⟨by rw [hdd]; rfl, by rw [hvv]; rfl⟩, fun _ => by simp⟩
      · intro d2 v2 hd2 hv2
        rw [hdd] at hd2
        cases hd2
        rw [hvv] at hv2
        cases hv2
        refine ⟨nd, hnd, ?_⟩
        rw [approvalValueStr_eq]
  next hne =>
    cases h
    constructor
    · constructor
      · intro hne2
        exact absurd rfl hne2
      · rintro ⟨hds, hvs⟩
        obtain ⟨d, hd⟩ := Option.isSome_iff_exists.mp hds
        obtain ⟨v, hv⟩ := Option.isSome_iff_exists.mp hvs
        exact (hne d v hd hv).elim
    · intro d v hd hv
      exact (hne d v hd hv).elim

def entryNeg : ApprovalEntry :=
  { date := some "2020-04-09 11:00:00.000000000", value := some (-1),
    _account_id := 7, name := some "bob" }

def entryNoDate : ApprovalEntry :=
  { date := none, value := some 1, _account_id := 9, name := none }

def evsNeg : List EventRec := (voterEvents cNew "Code-Review" entryNeg).getD []

def evsNoDate : List EventRec := (voterEvents cNew "Code-Review" entryNoDate).getD []

/-- Witness for claim C2: a Code-Review vote of -1 yields an event with
approval "Code-Review-1"; an entry with a value but no date yields nothing. -/
theorem claim_C2_witness :
    (∃ nd, convert_date_for_db "2020-04-09 11:00:00.000000000" = some nd ∧
      evsNeg = [insert_change_attributes
        (baseEvent "ChangeReviewedEvent"
          (nd ++ "_" ++ "Code-Review" ++ "_" ++ Int.repr (-1) ++ "_" ++
            Int.repr entryNeg._account_id)
          nd
          (some ((match entryNeg.name with
            | some n => n
            | none => "None") ++ "/" ++ Int.repr entryNeg._account_id))
          (some ("Code-Review" ++
            (if (-1 : Int) < 0 then Int.repr (-1) else "+" ++ Int.repr (-1))))) cNew]) ∧
    evsNoDate = [] ∧
    (∀ e, e ∈ evsNeg → e.approval = some "Code-Review-1") :=
  ⟨(claim_C2 cNew "Code-Review" entryNeg evsNeg (by decide)).2
      "2020-04-09 11:00:00.000000000" (-1) (by decide) (by decide),
   by decide, by decide⟩


end Monocle
